import Mathlib

/-!
Verification of the format-agnostic image abstraction layer (src/image.rs):
the `ImageDecoder` trait with its default `load_rect` partial-region decode,
the `GenericImage` capability, the `Pixels` iterator, the `SubImage` view,
and the Porter-Duff alpha compositor described by the design document.

Conventions of the embedding:
- machine integers (`u32`, `usize`) are modelled as `Nat`; none of the code
  paths exercised here can overflow at the concrete inputs used;
- Rust mutation is modelled by explicit state passing;
- a Rust panic (out-of-range slice index, failed assertion) is modelled by a
  distinguished `fault` outcome, separate from `Err`/`Ok` results.
-/

set_option autoImplicit false

/-- `ImageError` from src/image.rs.  The payloads of `FormatError`,
`UnsupportedError`, `UnsupportedColor` and `IoError` come from external
modules and are simplified to `String`/`Nat`/unit-like data; no claim
inspects them. -/
inductive ImageError where
  | formatError (detail : String)
  | dimensionError
  | unsupportedError (detail : String)
  | unsupportedColor (colortype : Nat)
  | notEnoughData
  | ioError
  | imageEnd
deriving DecidableEq

/-- Model of a conforming streaming decoder driven by `load_rect`.
`ImageDecoder` is a trait whose primitives (`dimensions`, `colortype`,
`row_len`, `read_scanline`) are implemented by external format backends,
so the state they act on is modelled from the spec: an image of `w`×`h`
pixels stored as 0-based scanlines `rows`, a colour type represented by its
bit depth `bitsPerPixel` (the external `color::bits_per_pixel` table is
modelled by this stored value), a decoded-row byte length `rowlen`, and a
cursor `pos` holding the next 1-based row index to be read.  `dimensions`,
`colortype` and `row_len` of this model decoder always succeed and return
the corresponding fields. -/
structure Decoder where
  w : Nat
  h : Nat
  bitsPerPixel : Nat
  rowlen : Nat
  rows : Nat → List Nat
  pos : Nat

/-- Replace the cursor of a decoder (the only field `read_scanline` mutates). -/
def setPos (d : Decoder) (p : Nat) : Decoder :=
  ⟨d.w, d.h, d.bitsPerPixel, d.rowlen, d.rows, p⟩

/-- Modelled from the spec: the effect of `read_scanline(buf)` on its buffer.
The decoder writes `row_len` bytes of the current scanline into the front of
`buf`; the remainder of `buf` is untouched. -/
def scanInto (d : Decoder) (buf : List Nat) : List Nat :=
  ((d.rows (d.pos - 1)).take d.rowlen) ++ buf.drop d.rowlen

/-- Modelled from the spec: `read_scanline` (a trait primitive implemented by
external format decoders).  Per §4.2 of the design document it returns 1-based
row indices increasing monotonically from 1 with no gaps and fails with
`ImageEnd` once the image is exhausted. -/
def readScanline (d : Decoder) (buf : List Nat) :
    Except ImageError (Nat × List Nat × Decoder) :=
  if d.h < d.pos then .error .imageEnd
  else .ok (d.pos, scanInto d buf, setPos d (d.pos + 1))

/-- The scanline-discarding loop of `load_rect` (src/image.rs lines 143-149):
`loop { let row = try!(self.read_scanline(&mut tmp)); if row - 1 == y { break } }`.
The loop is unbounded in the source; `fuel` is the loop variant
`h + 2 - pos` supplied by `skipLoop`.  When fuel reaches 0 the cursor is
already past `h + 1`, so the next `read_scanline` of the real loop would
return `ImageEnd`; the 0 case returns exactly that, so the wrapper computes
the same function as the source loop. -/
def skipAux (y : Nat) : Nat → Decoder → List Nat → Except ImageError (List Nat × Decoder)
  | 0, _, _ => .error .imageEnd
  | fuel + 1, d, tmp =>
    if d.h < d.pos then .error .imageEnd
    else
      if d.pos - 1 = y then .ok (scanInto d tmp, setPos d (d.pos + 1))
      else skipAux y fuel (setPos d (d.pos + 1)) (scanInto d tmp)

/-- The scanline-discarding loop of `load_rect`, with the fuel instantiated. -/
def skipLoop (d : Decoder) (y : Nat) (tmp : List Nat) :
    Except ImageError (List Nat × Decoder) :=
  skipAux y (d.h + 2 - d.pos) d tmp

/-- Rust slice indexing `&l[a..b]`: panics (`none`) unless `a ≤ b ≤ l.len()`. -/
def sliceRange (l : List Nat) (a b : Nat) : Option (List Nat) :=
  if a ≤ b ∧ b ≤ l.length then some ((l.drop a).take (b - a)) else none

/-- Overwrite `buf[start .. start + src.len()]` with `src`
(the effect of `slice::bytes::copy_memory` through a sub-slice of `buf`). -/
def writeAt (buf : List Nat) (start : Nat) (src : List Nat) : List Nat :=
  buf.take start ++ src ++ buf.drop (start + src.length)

/-- Outcome of a `load_rect` call: an `Ok` byte vector, an `Err`, or a Rust
panic (`fault`) raised by slice indexing or by the length assertion inside
`slice::bytes::copy_memory`. -/
inductive RectOutcome where
  | ok (buf : List Nat)
  | error (e : ImageError)
  | fault
deriving DecidableEq

/-- The row-copying loop of `load_rect` (src/image.rs lines 151-161):
`for i in (0..length) { let from = &tmp[x*bpp..width*bpp];
let to = &mut buf[i*width*bpp..width*bpp]; copy_memory(to, from);
let _ = try!(self.read_scanline(&mut tmp)); }` followed by `Ok(buf)`.
`rem` counts the remaining iterations (`length` down to 0) while `i` is the
loop counter; both slice expressions keep the source's (buggy) end bounds.
`copy_memory(dst, src)` asserts `dst.len() >= src.len()` and copies
`src.len()` bytes to the front of `dst`. -/
def copyLoop (x width bpp : Nat) : Nat → Nat → List Nat → List Nat → Decoder → RectOutcome
  | 0, _, _, buf, _ => .ok buf
  | rem + 1, i, tmp, buf, d =>
    match sliceRange tmp (x * bpp) (width * bpp) with
    | none => .fault
    | some src =>
      if i * width * bpp ≤ width * bpp ∧ width * bpp ≤ buf.length then
        if width * bpp - i * width * bpp < src.length then .fault
        else
          let buf' := writeAt buf (i * width * bpp) src
          match readScanline d tmp with
          | .error e => .error e
          | .ok (_, tmp', d') => copyLoop x width bpp rem (i + 1) tmp' buf' d'
      else .fault

/-- `ImageDecoder::load_rect` (src/image.rs lines 127-164), translated
clause by clause: dimension validation, `bpp` from the colour type's bit
depth, allocation of the output and scratch buffers, the scanline-skipping
loop, then the row-copying loop. -/
def loadRect (d : Decoder) (x y length width : Nat) : RectOutcome :=
  if d.h < length ∨ d.w < width ∨ d.w < x ∨ d.h < y then .error .dimensionError
  else
    let bpp := d.bitsPerPixel / 8
    let buf := List.replicate (length * width * bpp) 0
    let tmp := List.replicate d.rowlen 0
    match skipLoop d y tmp with
    | .error e => .error e
    | .ok (tmp', d') => copyLoop x width bpp length 0 tmp' buf d'

/-- A concrete conforming 2×2 decoder with 8-bit pixels (1 byte per pixel):
scanlines `[10, 20]` and `[30, 40]`, fresh cursor. -/
def d2x2 : Decoder :=
  ⟨2, 2, 8, 2, fun i => match i with | 0 => [10, 20] | 1 => [30, 40] | _ => [0, 0], 1⟩

/-- A concrete conforming 3×3 decoder with 8-bit pixels: scanlines
`[1, 2, 3]`, `[4, 5, 6]`, `[7, 8, 9]`, fresh cursor. -/
def d3x3 : Decoder :=
  ⟨3, 3, 8, 3,
    fun i => match i with | 0 => [1, 2, 3] | 1 => [4, 5, 6] | 2 => [7, 8, 9] | _ => [0, 0, 0], 1⟩

/-- An RGBA pixel with 0..255 integer channels (`Rgba<u8>` of the external
colour module). -/
structure Rgba where
  r : Nat
  g : Nat
  b : Nat
  a : Nat
deriving DecidableEq

/-- Round `p / q` to the nearest integer (halves round up). -/
def roundDiv (p q : Nat) : Nat := (2 * p + q) / (2 * q)

/-- Modelled from the spec: the reference alpha compositor of §4.5
(`blend_pixel` semantics; the `Pixel::blend` implementation lives in the
external buffer/colour modules).  With `a = alphaS/255` and
`d = alphaD/255`: `outAlphaF = a + d*(1-a)`, each colour channel is
`(colorS*a + colorD*d*(1-a)) / outAlphaF` rounded to the nearest integer
(0 when `outAlphaF = 0`), and `outAlpha = round(outAlphaF*255)`.  All
quantities are computed here in exact rational arithmetic over a common
denominator `255²`, so `A = alphaS*255 + alphaD*(255-alphaS)` is
`outAlphaF*255²` and each channel is `round(N/A)` with
`N = colorS*alphaS*255 + colorD*(alphaD*(255-alphaS))`. -/
def blendAlphaNum (dst src : Rgba) : Nat := src.a * 255 + dst.a * (255 - src.a)

/-- One colour channel of the §4.5 compositor: `round(N/A)` for `A > 0`,
0 otherwise, where `cs`/`cd` are the source/destination channel values. -/
def blendChannel (dst src : Rgba) (cs cd : Nat) : Nat :=
  if blendAlphaNum dst src = 0 then 0
  else roundDiv (cs * src.a * 255 + cd * (dst.a * (255 - src.a))) (blendAlphaNum dst src)

def blendSpec (dst src : Rgba) : Rgba :=
  ⟨blendChannel dst src src.r dst.r,
   blendChannel dst src src.g dst.g,
   blendChannel dst src src.b dst.b,
   roundDiv (blendAlphaNum dst src) 255⟩

/-- Expected result asserted by the unit test `test_image_alpha_blending`
(src/image.rs line 416) for blending `(255,0,0,127)` onto `(0,255,0,255)`. -/
def testBlendSolid : Rgba := ⟨127, 127, 0, 255⟩

/-- Expected result asserted by the unit test `test_image_alpha_blending`
(src/image.rs line 421) for blending `(255,0,0,127)` onto `(0,255,0,127)`. -/
def testBlendAlpha : Rgba := ⟨169, 85, 0, 190⟩

/-- The blending operation of a pixel type (`Pixel::blend` of the external
buffer module; `blend dst src` composites `src` over `dst`). -/
class PixelBlend (P : Type) where
  blend : P → P → P

instance : PixelBlend Rgba := ⟨blendSpec⟩

/-- A trivial blend for test pixel types that carry no alpha. -/
instance : PixelBlend Nat := ⟨fun _ src => src⟩

/-- The `GenericImage` trait (src/image.rs lines 242-309).  Mutating
operations return the updated image.  `get_pixel_mut`, which in Rust returns
an exclusive reference into the image, is modelled by `getPixelMut`, the
in-place update that such a reference enables: it applies a function to the
addressed pixel. -/
class GenericImage (I : Type) (P : outParam Type) where
  dimensions : I → Nat × Nat
  bounds : I → Nat × Nat × Nat × Nat
  getPixel : I → Nat → Nat → P
  getPixelMut : I → Nat → Nat → (P → P) → I
  putPixel : I → Nat → Nat → P → I
  blendPixel : I → Nat → Nat → P → I

/-- Modelled from the spec: a concrete pixel-addressable image (the
`ImageBuffer` implementer of `GenericImage` lives in the external buffer
module).  §3 of the design document: it owns a 2-D grid of pixels and a
top-level buffer has bounds offset `(0, 0)`. -/
structure ImageF (P : Type) where
  width : Nat
  height : Nat
  data : Nat → Nat → P

/-- Read a pixel of an `ImageF`. -/
def ImageF.getPixel {P : Type} (im : ImageF P) (x y : Nat) : P := im.data x y

/-- Overwrite one pixel of an `ImageF`. -/
def ImageF.putPixel {P : Type} (im : ImageF P) (x y : Nat) (p : P) : ImageF P :=
  ⟨im.width, im.height, fun a b => if a = x ∧ b = y then p else im.data a b⟩

instance {P : Type} [PixelBlend P] : GenericImage (ImageF P) P :=
  ⟨fun im => (im.width, im.height),
   fun im => (0, 0, im.width, im.height),
   ImageF.getPixel,
   fun im x y f => ImageF.putPixel im x y (f (im.data x y)),
   ImageF.putPixel,
   fun im x y p => ImageF.putPixel im x y (PixelBlend.blend (im.data x y) p)⟩

/-- The immutable pixel iterator (src/image.rs lines 169-197): an image
reference plus cursor `(x, y)` and the cached `(width, height)`. -/
structure Pixels (I : Type) where
  image : I
  x : Nat
  y : Nat
  width : Nat
  height : Nat

/-- `Pixels::next` (src/image.rs lines 180-196).  The source first applies
the carriage-return step (`if x >= width { x = 0; y += 1 }`) and then tests
`y >= height` on the mutated state; the two branches below are those two
paths with the mutation substituted in. -/
def Pixels.next {I P : Type} [GenericImage I P] (s : Pixels I) :
    Option ((Nat × Nat × P) × Pixels I) :=
  if s.width ≤ s.x then
    if s.height ≤ s.y + 1 then none
    else some ((0, s.y + 1, GenericImage.getPixel s.image 0 (s.y + 1)),
               ⟨s.image, 1, s.y + 1, s.width, s.height⟩)
  else
    if s.height ≤ s.y then none
    else some ((s.x, s.y, GenericImage.getPixel s.image s.x s.y),
               ⟨s.image, s.x + 1, s.y, s.width, s.height⟩)

/-- Drive the iterator for at most `fuel` steps and collect every item it
yields (the observation harness for `Pixels`). -/
def Pixels.collect {I P : Type} [GenericImage I P] :
    Nat → Pixels I → List (Nat × Nat × P)
  | 0, _ => []
  | fuel + 1, s =>
    match Pixels.next s with
    | none => []
    | some (p, s1) => p :: Pixels.collect fuel s1

/-- `GenericImage::pixels` (src/image.rs lines 281-291): a fresh iterator at
`(0, 0)` caching the image dimensions. -/
def GenericImage.pixels {I P : Type} [GenericImage I P] (img : I) : Pixels I :=
  ⟨img, 0, 0, (GenericImage.dimensions img).1, (GenericImage.dimensions img).2⟩

/-- The tail of one row of the row-major enumeration: the `r` items
`(x, y), (x+1, y), …, (x+r-1, y)` with their pixel values. -/
def rowSeg {P : Type} (g : Nat → Nat → P) (y : Nat) : Nat → Nat → List (Nat × Nat × P)
  | _, 0 => []
  | x, r + 1 => (x, y, g x y) :: rowSeg g y (x + 1) r

/-- `n` full rows of the row-major enumeration starting at row `y`. -/
def rowsSeg {P : Type} (g : Nat → Nat → P) (w : Nat) : Nat → Nat → List (Nat × Nat × P)
  | _, 0 => []
  | y, n + 1 => rowSeg g y 0 w ++ rowsSeg g w (y + 1) n

/-- The full row-major enumeration of a `w`×`h` grid: rows `0…h-1` in order,
`x` varying fastest within each row. -/
def rowMajor {P : Type} (w h : Nat) (g : Nat → Nat → P) : List (Nat × Nat × P) :=
  rowsSeg g w 0 h

/-- `SubImage` (src/image.rs lines 312-318): a view holding the wrapped
image together with an offset and stride. -/
structure SubImage (I : Type) where
  image : I
  xoffset : Nat
  yoffset : Nat
  xstride : Nat
  ystride : Nat

/-- `SubImage::new` (src/image.rs lines 325-333). -/
def SubImage.new {I : Type} (image : I) (x y width height : Nat) : SubImage I :=
  ⟨image, x, y, width, height⟩

/-- The `GenericImage` implementation for `SubImage` (src/image.rs lines
365-395): every operation adds the offset to the local coordinates and
delegates to the wrapped image. -/
instance {I P : Type} [GenericImage I P] : GenericImage (SubImage I) P :=
  ⟨fun s => (s.xstride, s.ystride),
   fun s => (s.xoffset, s.yoffset, s.xstride, s.ystride),
   fun s x y => GenericImage.getPixel s.image (x + s.xoffset) (y + s.yoffset),
   fun s x y f =>
     ⟨GenericImage.getPixelMut s.image (x + s.xoffset) (y + s.yoffset) f,
      s.xoffset, s.yoffset, s.xstride, s.ystride⟩,
   fun s x y p =>
     ⟨GenericImage.putPixel s.image (x + s.xoffset) (y + s.yoffset) p,
      s.xoffset, s.yoffset, s.xstride, s.ystride⟩,
   fun s x y p =>
     ⟨GenericImage.blendPixel s.image (x + s.xoffset) (y + s.yoffset) p,
      s.xoffset, s.yoffset, s.xstride, s.ystride⟩⟩

/-- Modelled from the spec: the external `ImageBuffer` container used by
`SubImage::to_image` (its implementation lives in the buffer module).  A
fresh buffer of given dimensions whose pixels can be read and overwritten. -/
structure ImageBuffer (P : Type) where
  width : Nat
  height : Nat
  pix : Nat → Nat → P

/-- Modelled from the spec: `ImageBuffer::new(w, h)`, a freshly allocated
`w`×`h` buffer of default (zeroed) pixels. -/
def ImageBuffer.new (P : Type) [Inhabited P] (w h : Nat) : ImageBuffer P :=
  ⟨w, h, fun _ _ => default⟩

/-- Modelled from the spec: `ImageBuffer::put_pixel`. -/
def ImageBuffer.putPixel {P : Type} (b : ImageBuffer P) (x y : Nat) (p : P) :
    ImageBuffer P :=
  ⟨b.width, b.height, fun i j => if i = x ∧ j = y then p else b.pix i j⟩

/-- Modelled from the spec: `ImageBuffer::get_pixel`. -/
def ImageBuffer.getPixel {P : Type} (b : ImageBuffer P) (x y : Nat) : P := b.pix x y

/-- `SubImage::to_image` (src/image.rs lines 349-360): allocate a fresh
buffer of dimensions `(xstride, ystride)` and copy `self.get_pixel(x, y)`
into it for every local coordinate, rows outer and columns inner. -/
def SubImage.toImage {I P : Type} [GenericImage I P] [Inhabited P] (s : SubImage I) :
    ImageBuffer P :=
  (List.range s.ystride).foldl
    (fun out y =>
      (List.range s.xstride).foldl
        (fun out x => ImageBuffer.putPixel out x y (GenericImage.getPixel s x y))
        out)
    (ImageBuffer.new P s.xstride s.ystride)

/-- A concrete 2×2 test image with pixel value `10*x + y` at `(x, y)`. -/
def img2x2 : ImageF Nat := ⟨2, 2, fun a b => 10 * a + b⟩

/-- A concrete 4×4 test image with pixel value `10*x + y` at `(x, y)`. -/
def img4 : ImageF Nat := ⟨4, 4, fun a b => 10 * a + b⟩

/-- A concrete 2×2 view into `img4` at offset `(1, 1)`. -/
def sub4 : SubImage (ImageF Nat) := SubImage.new img4 1 1 2 2

/-- A degenerate image of width 0 and height 2. -/
def imgW0 : ImageF Nat := ⟨0, 2, fun _ _ => 7⟩

/-- A 1×1 RGBA image holding a fully transparent but coloured pixel. -/
def imT : ImageF Rgba := ⟨1, 1, fun _ _ => ⟨1, 2, 3, 0⟩⟩

/-- A 1×1 RGBA image holding a partially opaque pixel. -/
def imW : ImageF Rgba := ⟨1, 1, fun _ _ => ⟨5, 6, 7, 9⟩⟩

/-! ### Helper lemmas -/

theorem roundDiv_mul_self (c q : Nat) (hq : 0 < q) : roundDiv (c * q) q = c := by
  unfold roundDiv
  have h1 : 2 * (c * q) + q = (2 * c + 1) * q := by ring
  have h2 : 2 * q = 2 * q := rfl
  rw [h1, show (2 * c + 1) * q = q * (2 * c + 1) by ring,
    show 2 * q = q * 2 by ring, Nat.mul_div_mul_left _ _ hq]
  omega

theorem blendAlphaNum_fullSrc (dst src : Rgba) (h : src.a = 255) :
    blendAlphaNum dst src = 255 * 255 := by
  unfold blendAlphaNum
  rw [h]
  omega

theorem blendChannel_fullSrc (dst src : Rgba) (h : src.a = 255) (cs cd : Nat) :
    blendChannel dst src cs cd = cs := by
  unfold blendChannel
  rw [blendAlphaNum_fullSrc dst src h, if_neg (by omega), h]
  rw [show cs * 255 * 255 + cd * (dst.a * (255 - 255)) = cs * (255 * 255) by
    rw [Nat.sub_self, Nat.mul_zero, Nat.mul_zero, Nat.add_zero, Nat.mul_assoc]]
  exact roundDiv_mul_self _ _ (by omega)

theorem blendSpec_fullSrc (dst src : Rgba) (h : src.a = 255) : blendSpec dst src = src := by
  unfold blendSpec
  rw [blendChannel_fullSrc dst src h, blendChannel_fullSrc dst src h,
    blendChannel_fullSrc dst src h, blendAlphaNum_fullSrc dst src h,
    roundDiv_mul_self 255 255 (by omega)]
  obtain ⟨sr, sg, sb, sa⟩ := src
  simp only at h
  subst h
  rfl

theorem blendAlphaNum_transparent (dst src : Rgba) (h : src.a = 0) :
    blendAlphaNum dst src = dst.a * 255 := by
  unfold blendAlphaNum
  rw [h]
  omega

theorem blendChannel_transparent (dst src : Rgba) (h : src.a = 0) (hd : 0 < dst.a)
    (cs cd : Nat) : blendChannel dst src cs cd = cd := by
  unfold blendChannel
  rw [blendAlphaNum_transparent dst src h, if_neg (by omega), h]
  rw [show cs * 0 * 255 + cd * (dst.a * (255 - 0)) = cd * (dst.a * 255) by
    rw [Nat.mul_zero, Nat.zero_mul, Nat.zero_add, Nat.sub_zero]]
  exact roundDiv_mul_self _ _ (by omega)

theorem blendSpec_transparent (dst src : Rgba) (h : src.a = 0) (hd : 0 < dst.a) :
    blendSpec dst src = dst := by
  unfold blendSpec
  rw [blendChannel_transparent dst src h hd, blendChannel_transparent dst src h hd,
    blendChannel_transparent dst src h hd, blendAlphaNum_transparent dst src h,
    roundDiv_mul_self dst.a 255 (by omega)]

theorem blendSpec_both_clear (dst src : Rgba) (h : src.a = 0) (hd : dst.a = 0) :
    blendSpec dst src = ⟨0, 0, 0, 0⟩ := by
  have hA : blendAlphaNum dst src = 0 := by
    unfold blendAlphaNum
    rw [h, hd]
  unfold blendSpec blendChannel
  rw [hA]
  rfl

@[simp] theorem setPos_w (d : Decoder) (p : Nat) : (setPos d p).w = d.w := rfl

@[simp] theorem setPos_h (d : Decoder) (p : Nat) : (setPos d p).h = d.h := rfl

@[simp] theorem setPos_bitsPerPixel (d : Decoder) (p : Nat) :
    (setPos d p).bitsPerPixel = d.bitsPerPixel := rfl

@[simp] theorem setPos_rowlen (d : Decoder) (p : Nat) : (setPos d p).rowlen = d.rowlen := rfl

@[simp] theorem setPos_rows (d : Decoder) (p : Nat) : (setPos d p).rows = d.rows := rfl

@[simp] theorem setPos_pos (d : Decoder) (p : Nat) : (setPos d p).pos = p := rfl

@[simp] theorem setPos_setPos (d : Decoder) (p q : Nat) :
    setPos (setPos d p) q = setPos d q := rfl

theorem scanInto_length (d : Decoder) (buf : List Nat)
    (hrows : ∀ i, (d.rows i).length = d.rowlen) (hbuf : buf.length = d.rowlen) :
    (scanInto d buf).length = d.rowlen := by
  unfold scanInto
  rw [List.length_append, List.length_take, List.length_drop, hrows, hbuf]
  omega

theorem scanInto_current (d : Decoder) (buf : List Nat)
    (hrows : ∀ i, (d.rows i).length = d.rowlen) (hbuf : buf.length = d.rowlen) :
    scanInto d buf = d.rows (d.pos - 1) := by
  unfold scanInto
  rw [← hrows (d.pos - 1), List.take_length, hrows (d.pos - 1), ← hbuf,
    List.drop_length, List.append_nil]

theorem skipAux_reaches (y : Nat) :
    ∀ (fuel : Nat) (d : Decoder) (tmp : List Nat),
      1 ≤ d.pos → d.pos ≤ y + 1 → y < d.h →
      (∀ i, (d.rows i).length = d.rowlen) → tmp.length = d.rowlen →
      y + 2 - d.pos < fuel →
      skipAux y fuel d tmp = .ok (d.rows y, setPos d (y + 2)) := by
  intro fuel
  induction fuel with
  | zero => intro d tmp _ _ _ _ _ hf; omega
  | succ fuel ih =>
    intro d tmp h1 h2 hy hrows htmp hf
    simp only [skipAux]
    rw [if_neg (by omega)]
    by_cases hb : d.pos - 1 = y
    · rw [if_pos hb]
      rw [scanInto_current d tmp hrows htmp, hb,
        show d.pos + 1 = y + 2 from by omega]
    · rw [if_neg hb]
      have step := ih (setPos d (d.pos + 1)) (scanInto d tmp)
        (by simp) (by simp; omega) (by simpa using hy)
        (by intro i; simp [hrows i])
        (by simpa using scanInto_length d tmp hrows htmp)
        (by simp; omega)
      simpa using step

theorem skipLoop_reaches (d : Decoder) (y : Nat) (tmp : List Nat)
    (h1 : 1 ≤ d.pos) (h2 : d.pos ≤ y + 1) (hy : y < d.h)
    (hrows : ∀ i, (d.rows i).length = d.rowlen) (htmp : tmp.length = d.rowlen) :
    skipLoop d y tmp = .ok (d.rows y, setPos d (y + 2)) :=
  skipAux_reaches y (d.h + 2 - d.pos) d tmp h1 h2 hy hrows htmp (by omega)

theorem loadRect_after_skip (d : Decoder) (x y length width : Nat)
    (hpos : d.pos = 1) (hrows : ∀ i, (d.rows i).length = d.rowlen)
    (hy : y < d.h) (hl : length ≤ d.h) (hw : width ≤ d.w) (hx : x ≤ d.w) :
    loadRect d x y length width =
      copyLoop x width (d.bitsPerPixel / 8) length 0 (d.rows y)
        (List.replicate (length * width * (d.bitsPerPixel / 8)) 0) (setPos d (y + 2)) := by
  unfold loadRect
  rw [if_neg (by omega)]
  show (match skipLoop d y (List.replicate d.rowlen 0) with
    | .error e => RectOutcome.error e
    | .ok (tmp', d') => copyLoop x width (d.bitsPerPixel / 8) length 0 tmp'
        (List.replicate (length * width * (d.bitsPerPixel / 8)) 0) d') = _
  rw [skipLoop_reaches d y _ (by omega) (by omega) hy hrows (by simp)]

@[simp] theorem ImageBuffer.putPixel_pix {P : Type} (b : ImageBuffer P) (x y : Nat) (p : P)
    (i j : Nat) :
    (ImageBuffer.putPixel b x y p).pix i j = if i = x ∧ j = y then p else b.pix i j := rfl

@[simp] theorem ImageBuffer.putPixel_width {P : Type} (b : ImageBuffer P) (x y : Nat) (p : P) :
    (ImageBuffer.putPixel b x y p).width = b.width := rfl

@[simp] theorem ImageBuffer.putPixel_height {P : Type} (b : ImageBuffer P) (x y : Nat) (p : P) :
    (ImageBuffer.putPixel b x y p).height = b.height := rfl

theorem foldl_putRow_width {P : Type} (g : Nat → Nat → P) (y : Nat) :
    ∀ (l : List Nat) (out : ImageBuffer P),
      (l.foldl (fun o xx => ImageBuffer.putPixel o xx y (g xx y)) out).width = out.width := by
  intro l
  induction l with
  | nil => intro out; rfl
  | cons a l ih => intro out; rw [List.foldl_cons, ih]; rfl

theorem foldl_putRow_height {P : Type} (g : Nat → Nat → P) (y : Nat) :
    ∀ (l : List Nat) (out : ImageBuffer P),
      (l.foldl (fun o xx => ImageBuffer.putPixel o xx y (g xx y)) out).height = out.height := by
  intro l
  induction l with
  | nil => intro out; rfl
  | cons a l ih => intro out; rw [List.foldl_cons, ih]; rfl

theorem foldl_putGrid_width {P : Type} (g : Nat → Nat → P) (W : Nat) :
    ∀ (l : List Nat) (out : ImageBuffer P),
      (l.foldl (fun o yy => (List.range W).foldl
          (fun o2 xx => ImageBuffer.putPixel o2 xx yy (g xx yy)) o) out).width = out.width := by
  intro l
  induction l with
  | nil => intro out; rfl
  | cons a l ih => intro out; rw [List.foldl_cons, ih, foldl_putRow_width]

theorem foldl_putGrid_height {P : Type} (g : Nat → Nat → P) (W : Nat) :
    ∀ (l : List Nat) (out : ImageBuffer P),
      (l.foldl (fun o yy => (List.range W).foldl
          (fun o2 xx => ImageBuffer.putPixel o2 xx yy (g xx yy)) o) out).height = out.height := by
  intro l
  induction l with
  | nil => intro out; rfl
  | cons a l ih => intro out; rw [List.foldl_cons, ih, foldl_putRow_height]

theorem foldl_putRow_pix {P : Type} (g : Nat → Nat → P) (y : Nat) :
    ∀ (n : Nat) (out : ImageBuffer P) (i j : Nat),
      ((List.range n).foldl (fun o xx => ImageBuffer.putPixel o xx y (g xx y)) out).pix i j
        = if i < n ∧ j = y then g i y else out.pix i j := by
  intro n
  induction n with
  | zero =>
    intro out i j
    rw [List.range_zero, List.foldl_nil, if_neg (by omega)]
  | succ n ih =>
    intro out i j
    rw [List.range_succ, List.foldl_append, List.foldl_cons, List.foldl_nil,
      ImageBuffer.putPixel_pix, ih]
    by_cases h1 : i = n ∧ j = y
    · rw [if_pos h1, if_pos ⟨by omega, h1.2⟩, h1.1]
    · rw [if_neg h1]
      by_cases h2 : i < n ∧ j = y
      · rw [if_pos h2, if_pos ⟨by omega, h2.2⟩]
      · rw [if_neg h2, if_neg ?hglue]
        case hglue =>
          intro hc
          rcases Nat.lt_succ_iff_lt_or_eq.mp hc.1 with h | h
          · exact h2 ⟨h, hc.2⟩
          · exact h1 ⟨h, hc.2⟩

theorem foldl_putGrid_pix {P : Type} (g : Nat → Nat → P) (W : Nat) :
    ∀ (m : Nat) (out : ImageBuffer P) (i j : Nat),
      ((List.range m).foldl (fun o yy => (List.range W).foldl
          (fun o2 xx => ImageBuffer.putPixel o2 xx yy (g xx yy)) o) out).pix i j
        = if i < W ∧ j < m then g i j else out.pix i j := by
  intro m
  induction m with
  | zero =>
    intro out i j
    rw [List.range_zero, List.foldl_nil, if_neg (by omega)]
  | succ m ih =>
    intro out i j
    rw [List.range_succ, List.foldl_append, List.foldl_cons, List.foldl_nil,
      foldl_putRow_pix, ih]
    by_cases h1 : i < W ∧ j = m
    · rw [if_pos h1, if_pos ⟨h1.1, by omega⟩, h1.2]
    · rw [if_neg h1]
      by_cases h2 : i < W ∧ j < m
      · rw [if_pos h2, if_pos ⟨h2.1, by omega⟩]
      · rw [if_neg h2, if_neg ?hglue2]
        case hglue2 =>
          intro hc
          rcases Nat.lt_succ_iff_lt_or_eq.mp hc.2 with h | h
          · exact h2 ⟨hc.1, h⟩
          · exact h1 ⟨hc.1, h⟩

theorem rowSeg_length {P : Type} (g : Nat → Nat → P) (y : Nat) :
    ∀ (r x : Nat), (rowSeg g y x r).length = r := by
  intro r
  induction r with
  | zero => intro x; rfl
  | succ r ih => intro x; rw [rowSeg, List.length_cons, ih]

theorem rowsSeg_length {P : Type} (g : Nat → Nat → P) (w : Nat) :
    ∀ (n y : Nat), (rowsSeg g w y n).length = n * w := by
  intro n
  induction n with
  | zero => intro y; simp [rowsSeg]
  | succ n ih => intro y; rw [rowsSeg, List.length_append, rowSeg_length, ih]; ring

theorem collect_tail {I P : Type} [GenericImage I P] (img : I) (w h : Nat) :
    ∀ (fuel : Nat) (x y : Nat), 0 < w → x ≤ w → y < h →
      (w - x) + w * (h - 1 - y) < fuel →
      Pixels.collect fuel (⟨img, x, y, w, h⟩ : Pixels I) =
        rowSeg (fun a b => GenericImage.getPixel img a b) y x (w - x)
          ++ rowsSeg (fun a b => GenericImage.getPixel img a b) w (y + 1) (h - (y + 1)) := by
  intro fuel
  induction fuel with
  | zero => intro x y hw hx hy hf; omega
  | succ fuel ih =>
    intro x y hw hx hy hf
    by_cases hxw : x < w
    · -- within a row: the iterator emits (x, y) and advances to (x + 1, y)
      have hnext : Pixels.next (⟨img, x, y, w, h⟩ : Pixels I)
          = some ((x, y, GenericImage.getPixel img x y), ⟨img, x + 1, y, w, h⟩) := by
        unfold Pixels.next
        simp only
        rw [if_neg (by omega : ¬ w ≤ x), if_neg (by omega : ¬ h ≤ y)]
      rw [Pixels.collect, hnext]
      show (x, y, GenericImage.getPixel img x y)
          :: Pixels.collect fuel (⟨img, x + 1, y, w, h⟩ : Pixels I) = _
      rw [ih (x + 1) y hw (by omega) hy (by
        have e2 : w - x = (w - (x + 1)) + 1 := by omega
        rw [e2] at hf
        omega)]
      have h1 : rowSeg (fun a b => GenericImage.getPixel img a b) y x ((w - (x + 1)) + 1)
          = (x, y, GenericImage.getPixel img x y)
            :: rowSeg (fun a b => GenericImage.getPixel img a b) y (x + 1) (w - (x + 1)) := rfl
      rw [show (w - (x + 1)) + 1 = w - x from by omega] at h1
      rw [h1, List.cons_append]
    · -- end of a row: the carriage-return step fires
      have hxw' : x = w := by omega
      by_cases hend : h ≤ y + 1
      · -- the window is exhausted: `next` returns `None`
        have hnext : Pixels.next (⟨img, x, y, w, h⟩ : Pixels I) = none := by
          unfold Pixels.next
          simp only
          rw [if_pos (by omega : w ≤ x), if_pos hend]
        rw [Pixels.collect, hnext]
        show ([] : List (Nat × Nat × P)) = _
        rw [show w - x = 0 from by omega, show h - (y + 1) = 0 from by omega]
        rfl
      · -- the iterator emits (0, y + 1) and advances to (1, y + 1)
        have hnext : Pixels.next (⟨img, x, y, w, h⟩ : Pixels I)
            = some ((0, y + 1, GenericImage.getPixel img 0 (y + 1)), ⟨img, 1, y + 1, w, h⟩) := by
          unfold Pixels.next
          simp only
          rw [if_pos (by omega : w ≤ x), if_neg hend]
        rw [Pixels.collect, hnext]
        show (0, y + 1, GenericImage.getPixel img 0 (y + 1))
            :: Pixels.collect fuel (⟨img, 1, y + 1, w, h⟩ : Pixels I) = _
        rw [ih 1 (y + 1) hw (by omega) (by omega) (by
          have e1 : h - 1 - (y + 1) = h - 2 - y := by omega
          have e2 : h - 1 - y = (h - 2 - y) + 1 := by omega
          rw [e1]
          rw [e2, Nat.mul_succ] at hf
          omega)]
        rw [show w - x = 0 from by omega]
        have h2 : rowsSeg (fun a b => GenericImage.getPixel img a b) w (y + 1) ((h - (y + 2)) + 1)
            = rowSeg (fun a b => GenericImage.getPixel img a b) (y + 1) 0 w
              ++ rowsSeg (fun a b => GenericImage.getPixel img a b) w (y + 2) (h - (y + 2)) := rfl
        rw [show (h - (y + 2)) + 1 = h - (y + 1) from by omega] at h2
        rw [h2]
        have h3 : rowSeg (fun a b => GenericImage.getPixel img a b) (y + 1) 0 ((w - 1) + 1)
            = (0, y + 1, GenericImage.getPixel img 0 (y + 1))
              :: rowSeg (fun a b => GenericImage.getPixel img a b) (y + 1) 1 (w - 1) := rfl
        rw [show (w - 1) + 1 = w from by omega] at h3
        rw [h3]
        rfl

theorem ImageF_blend_get {P : Type} [PixelBlend P] (im : ImageF P) (x y : Nat) (p : P) :
    GenericImage.getPixel (GenericImage.blendPixel im x y p) x y
      = PixelBlend.blend (GenericImage.getPixel im x y) p := by
  show (if x = x ∧ y = y then PixelBlend.blend (im.data x y) p else im.data x y) = _
  rw [if_pos (⟨rfl, rfl⟩ : x = x ∧ y = y)]
  rfl

theorem copyLoop_last_row (x width bpp : Nat) (row buf : List Nat) (d : Decoder)
    (hx : x * bpp ≤ width * bpp) (hrow : width * bpp ≤ row.length)
    (hbuf : buf.length = width * bpp) (hend : d.h < d.pos) :
    copyLoop x width bpp 1 0 row buf d = .error .imageEnd := by
  have hsrc : sliceRange row (x * bpp) (width * bpp)
      = some ((row.drop (x * bpp)).take (width * bpp - x * bpp)) := by
    unfold sliceRange
    rw [if_pos ⟨hx, hrow⟩]
  have hread : readScanline d row = .error .imageEnd := by
    unfold readScanline
    rw [if_pos hend]
  have h1 : copyLoop x width bpp 1 0 row buf d
      = (if 0 * width * bpp ≤ width * bpp ∧ width * bpp ≤ buf.length then
          if width * bpp - 0 * width * bpp
              < ((row.drop (x * bpp)).take (width * bpp - x * bpp)).length
          then RectOutcome.fault
          else
            match readScanline d row with
            | .error e => RectOutcome.error e
            | .ok (_, tmp', d') =>
                copyLoop x width bpp 0 (0 + 1) tmp'
                  (writeAt buf (0 * width * bpp)
                    ((row.drop (x * bpp)).take (width * bpp - x * bpp))) d'
         else RectOutcome.fault) := by
    show copyLoop x width bpp (0 + 1) 0 row buf d = _
    rw [copyLoop, hsrc]
  rw [h1, if_pos ⟨by omega, by omega⟩, if_neg ?hlen, hread]
  case hlen =>
    rw [List.length_take, List.length_drop]
    omega

/-! ### Claim theorems -/

/-- C1: the claim asserts that for every in-bounds rectangle `load_rect`
returns `Ok` with exactly `length*width*bpp` bytes.  Evaluating the code at
the in-bounds rectangle `(x, y, length, width) = (0, 0, 2, 2)` of a 2×2
1-byte-per-pixel image shows that the call panics instead: on the second
iteration the destination slice is `buf[width*bpp .. width*bpp]` (empty) and
the `copy_memory` length assertion fails. -/
theorem C1_inbounds_rect_panics : loadRect d2x2 0 0 2 2 = .fault := by decide

/-- C2: the claim asserts that output row `i` equals
`scanline[x*bpp .. (x+width)*bpp]`.  Evaluating the code on the rectangle
`(x, y, length, width) = (1, 0, 1, 1)` of the 2×2 image with first scanline
`[10, 20]`: the copied source window `tmp[x*bpp .. width*bpp] = tmp[1 .. 1]`
is empty, so the call returns `Ok [0]` (the untouched zeroed buffer) while
the claimed window `scanline[1 .. 2]` is `[20]`. -/
theorem C2_row_window_wrong :
    loadRect d2x2 1 0 1 1 = .ok [0] ∧ ((d2x2.rows 0).drop 1).take 1 = [20] := by decide

/-- C3: the claim asserts `DimensionError` whenever `x + width > w` or
`y + length > h`.  The code only checks `length > h || width > w || x > w ||
y > h`, so the rectangle `(x, y, length, width) = (2, 0, 1, 2)` of a 3×3
image, whose right edge `x + width = 4` exceeds `w = 3`, passes validation
and the call returns `Ok [0, 0]` rather than `DimensionError`. -/
theorem C3_out_of_bounds_accepted :
    d3x3.w < 2 + 2 ∧ loadRect d3x3 2 0 1 2 = .ok [0, 0] := by decide

/-- C4 counterexample: the §4.5 formula in exact rational arithmetic with
round-to-nearest does not reproduce the unit test's fixture: blending
`(255,0,0,127)` over `(0,255,0,127)` yields `(170,85,0,191)`, not the
test's `(169,85,0,190)`. -/
theorem C4_formula_misses_fixture :
    blendSpec ⟨0, 255, 0, 127⟩ ⟨255, 0, 0, 127⟩ ≠ testBlendAlpha := by decide

/-- C4 (amended): the §4.5 source-over formula, evaluated exactly, yields
`(170,85,0,191)` for `(255,0,0,127)` over `(0,255,0,127)` and
`(127,128,0,255)` for `(255,0,0,127)` over `(0,255,0,255)`; each channel is
within 1 of the unit test's fixtures `(169,85,0,190)`/`(127,127,0,255)`
(which reflect the external implementation's `f32` truncation), and the
fully opaque fixture `(255,0,0,255)` blended with `(0,255,0,255)` is
reproduced exactly. -/
theorem C4_blend_formula_values :
    blendSpec ⟨0, 255, 0, 127⟩ ⟨255, 0, 0, 127⟩ = ⟨170, 85, 0, 191⟩ ∧
    blendSpec ⟨0, 255, 0, 255⟩ ⟨255, 0, 0, 127⟩ = ⟨127, 128, 0, 255⟩ ∧
    blendSpec ⟨255, 0, 0, 255⟩ ⟨0, 255, 0, 255⟩ = ⟨0, 255, 0, 255⟩ ∧
    blendSpec ⟨0, 255, 0, 255⟩ ⟨255, 0, 0, 127⟩ ≠ testBlendSolid := by decide

/-- C5 counterexample: on an image of width 0 and height 2 the iterator is
claimed to yield `W*H = 0` triples, but the carriage-return step fires
before the bounds test, so it yields the out-of-bounds triple `(0, 1, ·)`. -/
theorem C5_zero_width_counterexample :
    imgW0.width * imgW0.height = 0 ∧
    Pixels.collect 5 (GenericImage.pixels imgW0) = [(0, 1, 7)] := by decide

/-- C5 (amended): for every image of width `W ≥ 1` and height `H`, `pixels()`
yields exactly the `W*H` row-major triples `(x, y, get_pixel(x, y))`
starting at `(0, 0)` with `x` varying fastest, and nothing afterwards (any
fuel beyond `W*H` produces the same list, whose length is `W*H`). -/
theorem C5_pixels_row_major {I P : Type} [GenericImage I P] (img : I) (w h fuel : Nat)
    (hdim : GenericImage.dimensions img = (w, h)) (hw : 0 < w) (hfuel : w * h < fuel) :
    Pixels.collect fuel (GenericImage.pixels img)
        = rowMajor w h (fun a b => GenericImage.getPixel img a b) ∧
      (rowMajor w h (fun a b => GenericImage.getPixel img a b)).length = w * h := by
  constructor
  · unfold GenericImage.pixels
    rw [hdim]
    show Pixels.collect fuel (⟨img, 0, 0, w, h⟩ : Pixels I) = _
    cases h with
    | zero =>
      obtain ⟨fuel', rfl⟩ : ∃ f, fuel = f + 1 := ⟨fuel - 1, by omega⟩
      have hnext : Pixels.next (⟨img, 0, 0, w, 0⟩ : Pixels I) = none := by
        unfold Pixels.next
        simp only
        rw [if_neg (by omega), if_pos (by omega)]
      rw [Pixels.collect, hnext]
      rfl
    | succ h' =>
      rw [collect_tail img w (h' + 1) fuel 0 0 hw (by omega) (by omega) (by
        have e1 : h' + 1 - 1 - 0 = h' := by omega
        rw [e1]
        rw [Nat.mul_succ] at hfuel
        omega)]
      rfl
  · rw [rowMajor, rowsSeg_length]
    ring

/-- C5 witness: the amended row-major property checked on a concrete 2×2
image with fuel 5. -/
theorem C5_pixels_row_major_witness :
    GenericImage.dimensions img2x2 = (2, 2) ∧ 0 < 2 ∧ 2 * 2 < 5 ∧
    (Pixels.collect 5 (GenericImage.pixels img2x2)
        = rowMajor 2 2 (fun a b => GenericImage.getPixel img2x2 a b) ∧
      (rowMajor 2 2 (fun a b => GenericImage.getPixel img2x2 a b)).length = 2 * 2) :=
  ⟨rfl, by decide, by decide, C5_pixels_row_major img2x2 2 2 5 rfl (by decide) (by decide)⟩

/-- C6: every `GenericImage` operation of a `SubImage` adds the view's
offset to the local coordinates and acts on the wrapped image there:
`get_pixel`, `put_pixel`, `blend_pixel` and `get_pixel_mut` at local
`(i, j)` all address the wrapped image at `(x + i, y + j)`. -/
theorem C6_subimage_forwards {I P : Type} [GenericImage I P] (img : I)
    (x y width height i j : Nat) (p : P) (f : P → P)
    (hi : i < width) (hj : j < height) :
    GenericImage.getPixel (SubImage.new img x y width height) i j
        = GenericImage.getPixel img (x + i) (y + j) ∧
      (GenericImage.putPixel (SubImage.new img x y width height) i j p).image
        = GenericImage.putPixel img (x + i) (y + j) p ∧
      (GenericImage.blendPixel (SubImage.new img x y width height) i j p).image
        = GenericImage.blendPixel img (x + i) (y + j) p ∧
      (GenericImage.getPixelMut (SubImage.new img x y width height) i j f).image
        = GenericImage.getPixelMut img (x + i) (y + j) f := by
  refine ⟨?_, ?_, ?_, ?_⟩ <;> (rw [Nat.add_comm x i, Nat.add_comm y j]; rfl)

/-- C6 witness: the forwarding equalities at the concrete view
`SubImage::new(img4, 1, 2, 2, 2)` and local coordinates `(1, 0)`. -/
theorem C6_subimage_forwards_witness :
    1 < 2 ∧ 0 < 2 ∧
    (GenericImage.getPixel (SubImage.new img4 1 2 2 2) 1 0
        = GenericImage.getPixel img4 (1 + 1) (2 + 0) ∧
      (GenericImage.putPixel (SubImage.new img4 1 2 2 2) 1 0 99).image
        = GenericImage.putPixel img4 (1 + 1) (2 + 0) 99 ∧
      (GenericImage.blendPixel (SubImage.new img4 1 2 2 2) 1 0 99).image
        = GenericImage.blendPixel img4 (1 + 1) (2 + 0) 99 ∧
      (GenericImage.getPixelMut (SubImage.new img4 1 2 2 2) 1 0 Nat.succ).image
        = GenericImage.getPixelMut img4 (1 + 1) (2 + 0) Nat.succ) :=
  ⟨by decide, by decide,
    C6_subimage_forwards img4 1 2 2 2 1 0 99 Nat.succ (by decide) (by decide)⟩

/-- C7: `SubImage::to_image` returns a buffer of dimensions
`(xstride, ystride)` whose pixel at every in-bounds `(i, j)` equals the
wrapped image's pixel at `(xoffset + i, yoffset + j)`; the construction
reads the view through `get_pixel` only and returns a fresh buffer, leaving
the wrapped image untouched. -/
theorem C7_toImage_copies {I P : Type} [GenericImage I P] [Inhabited P]
    (s : SubImage I) (i j : Nat) (hi : i < s.xstride) (hj : j < s.ystride) :
    (SubImage.toImage s).width = s.xstride ∧
    (SubImage.toImage s).height = s.ystride ∧
    ImageBuffer.getPixel (SubImage.toImage s) i j
      = GenericImage.getPixel s.image (s.xoffset + i) (s.yoffset + j) := by
  refine ⟨?_, ?_, ?_⟩
  · unfold SubImage.toImage
    rw [foldl_putGrid_width (fun a b => GenericImage.getPixel s a b) s.xstride]
    rfl
  · unfold SubImage.toImage
    rw [foldl_putGrid_height (fun a b => GenericImage.getPixel s a b) s.xstride]
    rfl
  · show (SubImage.toImage s).pix i j = _
    unfold SubImage.toImage
    rw [foldl_putGrid_pix (fun a b => GenericImage.getPixel s a b) s.xstride
      s.ystride (ImageBuffer.new P s.xstride s.ystride) i j]
    rw [if_pos ⟨hi, hj⟩, Nat.add_comm s.xoffset i, Nat.add_comm s.yoffset j]
    rfl

/-- C7 witness: the copy property at the concrete view `sub4` (offset
`(1, 1)`, stride `(2, 2)` into `img4`) and local coordinates `(1, 0)`. -/
theorem C7_toImage_copies_witness :
    1 < sub4.xstride ∧ 0 < sub4.ystride ∧
    ((SubImage.toImage sub4).width = sub4.xstride ∧
      (SubImage.toImage sub4).height = sub4.ystride ∧
      ImageBuffer.getPixel (SubImage.toImage sub4) 1 0
        = GenericImage.getPixel sub4.image (sub4.xoffset + 1) (sub4.yoffset + 0)) :=
  ⟨by decide, by decide, C7_toImage_copies sub4 1 0 (by decide) (by decide)⟩

/-- C8: for a fresh conforming decoder (cursor at row 1, every scanline of
length `row_len`) and any validated rectangle with `y < h`, the discard loop
of `load_rect` stops exactly at the scanline whose 1-based index is `y + 1`:
the call reduces to the copy loop with the scratch buffer holding scanline
`y` (0-based) and the cursor advanced to `y + 2`, so the first row copied
into the output is row `y` of the image. -/
theorem C8_skip_to_row (d : Decoder) (x y length width : Nat)
    (hpos : d.pos = 1) (hrows : ∀ i, (d.rows i).length = d.rowlen)
    (hy : y < d.h) (hl : length ≤ d.h) (hw : width ≤ d.w) (hx : x ≤ d.w) :
    loadRect d x y length width =
      copyLoop x width (d.bitsPerPixel / 8) length 0 (d.rows y)
        (List.replicate (length * width * (d.bitsPerPixel / 8)) 0) (setPos d (y + 2)) :=
  loadRect_after_skip d x y length width hpos hrows hy hl hw hx

/-- C8 witness: the skip property at the concrete decoder `d3x3` and the
rectangle `(0, 1, 1, 3)`: the copy phase starts from scanline 1. -/
theorem C8_skip_to_row_witness :
    d3x3.pos = 1 ∧ 1 < d3x3.h ∧
    loadRect d3x3 0 1 1 3 =
      copyLoop 0 3 (d3x3.bitsPerPixel / 8) 1 0 (d3x3.rows 1)
        (List.replicate (1 * 3 * (d3x3.bitsPerPixel / 8)) 0) (setPos d3x3 (1 + 2)) :=
  ⟨rfl, by decide,
    C8_skip_to_row d3x3 0 1 1 3 rfl
      (fun i => match i with | 0 => rfl | 1 => rfl | 2 => rfl | _ + 3 => rfl)
      (by decide) (by decide) (by decide) (by decide)⟩

/-- C9 counterexample: under the §4.5 formula, blending a fully transparent
source over a fully transparent but coloured destination `(1,2,3,0)` zeroes
the colour channels (`outAlphaF = 0`), so the destination pixel is not left
unchanged. -/
theorem C9_transparent_counterexample :
    GenericImage.getPixel (GenericImage.blendPixel imT 0 0 ⟨9, 9, 9, 0⟩) 0 0
      ≠ GenericImage.getPixel imT 0 0 := by decide

/-- C9 (amended): blending a fully transparent source (`alpha = 0`) leaves
the destination pixel unchanged provided the destination alpha is nonzero;
when both alphas are 0 the result is `(0,0,0,0)` (colour channels zeroed by
the `outAlphaF = 0` guard); blending a fully opaque source (`alpha = 255`)
overwrites colour and alpha exactly. -/
theorem C9_blend_extremes (im : ImageF Rgba) (x y : Nat) (s : Rgba) :
    (s.a = 0 → 0 < (GenericImage.getPixel im x y).a →
      GenericImage.getPixel (GenericImage.blendPixel im x y s) x y
        = GenericImage.getPixel im x y) ∧
    (s.a = 0 → (GenericImage.getPixel im x y).a = 0 →
      GenericImage.getPixel (GenericImage.blendPixel im x y s) x y = ⟨0, 0, 0, 0⟩) ∧
    (s.a = 255 →
      GenericImage.getPixel (GenericImage.blendPixel im x y s) x y = s) := by
  refine ⟨fun h0 hd => ?_, fun h0 hd => ?_, fun h255 => ?_⟩
  · rw [ImageF_blend_get]
    exact blendSpec_transparent _ _ h0 hd
  · rw [ImageF_blend_get]
    exact blendSpec_both_clear _ _ h0 hd
  · rw [ImageF_blend_get]
    exact blendSpec_fullSrc _ _ h255

/-- C9 witness: the two extreme-alpha cases at concrete pixels: blending
`(9,9,9,0)` over `(5,6,7,9)` keeps `(5,6,7,9)`, and blending `(1,2,3,255)`
over it yields `(1,2,3,255)`. -/
theorem C9_blend_extremes_witness :
    GenericImage.getPixel (GenericImage.blendPixel imW 0 0 ⟨9, 9, 9, 0⟩) 0 0
        = GenericImage.getPixel imW 0 0 ∧
    GenericImage.getPixel (GenericImage.blendPixel imW 0 0 ⟨1, 2, 3, 255⟩) 0 0
        = ⟨1, 2, 3, 255⟩ :=
  ⟨(C9_blend_extremes imW 0 0 ⟨9, 9, 9, 0⟩).1 rfl (by decide),
   (C9_blend_extremes imW 0 0 ⟨1, 2, 3, 255⟩).2.2 rfl⟩

/-- C10 counterexample: the claim asserts `ImageEnd` for every rectangle
whose bottom edge touches the bottom row, but for `(0, 1, 2, 3)` on the 3×3
image (with `y + length = 3 = h`) the call panics on the second row copy
before the trailing `read_scanline` is reached. -/
theorem C10_two_row_counterexample :
    1 + 2 = d3x3.h ∧ loadRect d3x3 0 1 2 3 ≠ .error .imageEnd := by decide

/-- C10 (amended): after copying the last requested row, `load_rect`
unconditionally reads one more scanline and propagates its failure.  The
universal consequence of the original claim fails only because some
bottom-edge rectangles panic during the row copies (the counterexample);
here the `ImageEnd` outcome is proved for every rectangle with
`length = 1`, `x ≤ width` and bottom edge on the image's bottom row
(`y + 1 = h`): the call returns `Err(ImageEnd)` instead of the filled
buffer. -/
theorem C10_bottom_edge_imageEnd (d : Decoder) (x y width : Nat)
    (hpos : d.pos = 1) (hrows : ∀ i, (d.rows i).length = d.rowlen)
    (hwr : width * (d.bitsPerPixel / 8) ≤ d.rowlen)
    (hxw : x ≤ width) (hw : width ≤ d.w) (hbot : y + 1 = d.h) :
    loadRect d x y 1 width = .error .imageEnd := by
  rw [loadRect_after_skip d x y 1 width hpos hrows (by omega) (by omega) hw (by omega)]
  apply copyLoop_last_row
  · exact Nat.mul_le_mul_right _ hxw
  · rw [hrows y]
    exact hwr
  · rw [List.length_replicate, Nat.one_mul]
  · rw [setPos_pos, setPos_h]
    omega

/-- C10 witness: the bottom-edge rectangle `(0, 1, 1, 2)` of the 2×2 image
returns `Err(ImageEnd)` even though all its bytes were copied. -/
theorem C10_bottom_edge_imageEnd_witness :
    1 + 1 = d2x2.h ∧ loadRect d2x2 0 1 1 2 = .error .imageEnd :=
  ⟨rfl, C10_bottom_edge_imageEnd d2x2 0 1 2 rfl
    (fun i => match i with | 0 => rfl | 1 => rfl | _ + 2 => rfl)
    (by decide) (by decide) (by decide) rfl⟩
